import Mathlib

/-!
Shallow embedding of the bevy-ai-toolkit template
(`templates/bevy-ai-toolkit/src/`): behavior trees, utility AI,
state machine and targeting, together with theorems about them.

Modelling conventions:
* `f32` score values are modelled by `F32`: an exact rational for every
  finite float, plus a `nan` value; the code only ever compares scores
  (never does arithmetic on them), and float comparison on finite values
  is exact, with every comparison involving NaN returning false.
* Bevy's `Entity` ids are modelled by `Nat`; component lookups become
  `Option` fields on an entity record.
* `GlobalTransform::translation().distance(..)` is an `f32` Euclidean
  distance; the targeting code only compares distances, so the metric is
  abstracted as a parameter `dist : P → P → ℚ` over an abstract point
  type `P`, and every theorem holds for all metrics.
* `tick(&mut self, entity, world) -> NodeStatus` becomes state passing:
  a child is a function `E → W → NodeStatus × W`.  Within a single tick
  of a `Selector`/`Sequence` each child is ticked at most once, so a
  child's internal `&mut self` state cannot be observed and a pure
  function is an adequate model.
-/

set_option autoImplicit false

namespace BevyAiToolkit

/-- Model of an `f32` value as used by scorers: a finite value (exact
rational) or NaN. -/
inductive F32 : Type where
  | nan : F32
  | val : ℚ → F32
  deriving DecidableEq, Repr

/-- The `>` comparison on `f32`: true only for finite values with
`b < a`; any comparison involving NaN is false. -/
def F32.gt : F32 → F32 → Bool
  | F32.val a, F32.val b => decide (b < a)
  | _, _ => false

/-! ## behavior_tree/mod.rs -/

namespace BehaviorTree

/-- `NodeStatus` from behavior_tree/mod.rs. -/
inductive NodeStatus : Type where
  | Success : NodeStatus
  | Failure : NodeStatus
  | Running : NodeStatus
  deriving DecidableEq, Repr

/-- `Selector { children: Vec<Box<dyn BehaviorNode>> }`; a child is its
tick function. -/
structure Selector (E W : Type) where
  children : List (E → W → NodeStatus × W)

/-- `Sequence { children: Vec<Box<dyn BehaviorNode>> }`. -/
structure Sequence (E W : Type) where
  children : List (E → W → NodeStatus × W)

/-- The loop of `Selector::tick`: tick children in order, return on the
first Success or Running, fall through on Failure. -/
def selectorRun {E W : Type} : List (E → W → NodeStatus × W) → E → W → NodeStatus × W
  | [], _, w => (NodeStatus.Failure, w)
  | c :: rest, e, w =>
    match c e w with
    | (NodeStatus.Success, wn) => (NodeStatus.Success, wn)
    | (NodeStatus.Running, wn) => (NodeStatus.Running, wn)
    | (NodeStatus.Failure, wn) => selectorRun rest e wn

/-- `impl BehaviorNode for Selector { fn tick(..) }`. -/
def Selector.tick {E W : Type} (s : Selector E W) (e : E) (w : W) : NodeStatus × W :=
  selectorRun s.children e w

/-- The loop of `Sequence::tick`: tick children in order, return on the
first Failure or Running, fall through on Success. -/
def sequenceRun {E W : Type} : List (E → W → NodeStatus × W) → E → W → NodeStatus × W
  | [], _, w => (NodeStatus.Success, w)
  | c :: rest, e, w =>
    match c e w with
    | (NodeStatus.Success, wn) => sequenceRun rest e wn
    | (NodeStatus.Running, wn) => (NodeStatus.Running, wn)
    | (NodeStatus.Failure, wn) => (NodeStatus.Failure, wn)

/-- `impl BehaviorNode for Sequence { fn tick(..) }`. -/
def Sequence.tick {E W : Type} (s : Sequence E W) (e : E) (w : W) : NodeStatus × W :=
  sequenceRun s.children e w

/-- The world obtained by ticking every child of the list in order
(used to speak about which world a later child observes). -/
def runChildren {E W : Type} (e : E) (cs : List (E → W → NodeStatus × W)) (w : W) : W :=
  cs.foldl (fun wc c => (c e wc).2) w

/-- Every child of the list, ticked in sequence from `w`, returns
Failure. -/
def allFail {E W : Type} (e : E) : List (E → W → NodeStatus × W) → W → Bool
  | [], _ => true
  | c :: rest, w => decide ((c e w).1 = NodeStatus.Failure) && allFail e rest (c e w).2

/-- Every child of the list, ticked in sequence from `w`, returns
Success. -/
def allSucceed {E W : Type} (e : E) : List (E → W → NodeStatus × W) → W → Bool
  | [], _ => true
  | c :: rest, w => decide ((c e w).1 = NodeStatus.Success) && allSucceed e rest (c e w).2

end BehaviorTree

/-! ## state_machine/mod.rs -/

namespace StateMachineMod

/-- `StateMachine<S> { current_state: S }` (the `PhantomData` marker
field carries no data and is omitted). -/
structure StateMachine (S : Type) where
  current_state : S

/-- `StateMachine::new(initial_state)`. -/
def StateMachine.new {S : Type} (initial_state : S) : StateMachine S :=
  { current_state := initial_state }

/-- `StateMachine::transition_to(&mut self, next_state)`. -/
def StateMachine.transition_to {S : Type} (m : StateMachine S) (next_state : S) : StateMachine S :=
  { m with current_state := next_state }

end StateMachineMod

/-! ## utility_ai/mod.rs -/

namespace UtilityAiMod

/-- `Consideration { scorer: Box<dyn Scorer>, action: Box<dyn Action> }`:
the scorer is its `score` function, the action is an opaque value. -/
structure Consideration (E W A : Type) where
  scorer : E → W → F32
  action : A

/-- `UtilityAi { considerations: Vec<Consideration> }`. -/
structure UtilityAi (E W A : Type) where
  considerations : List (Consideration E W A)

/-- The loop of `UtilityAi::select_best`, threading `best_score` and
`best_action` through the considerations. -/
def selectBestLoop {E W A : Type} (entity : E) (world : W) :
    List (Consideration E W A) → F32 → Option A → Option A
  | [], _, best_action => best_action
  | c :: rest, best_score, best_action =>
    let score := c.scorer entity world
    if F32.gt score best_score then
      selectBestLoop entity world rest score (some c.action)
    else
      selectBestLoop entity world rest best_score best_action

/-- `UtilityAi::select_best`: `best_score` starts at the `-1.0`
sentinel, `best_action` at `None`. -/
def UtilityAi.select_best {E W A : Type} (ai : UtilityAi E W A) (entity : E) (world : W) :
    Option A :=
  selectBestLoop entity world ai.considerations (F32.val (-1)) none

end UtilityAiMod

/-! ## targeting/mod.rs -/

namespace Targeting

/-- `Vision { range: f32, field_of_view: f32 }` (finite field values
modelled as rationals; the code only compares `range`). -/
structure Vision : Type where
  range : ℚ
  field_of_view : ℚ
  deriving DecidableEq, Repr

/-- `Target { entity: Option<Entity> }`. -/
structure Target : Type where
  entity : Option Nat
  deriving DecidableEq, Repr

/-- An ECS entity over point type `P`: id, `GlobalTransform` position,
optional `Vision` and `Target` components, and the `Targetable` marker. -/
structure Ent (P : Type) where
  id : Nat
  pos : P
  vision : Option Vision
  target : Option Target
  targetable : Bool

/-- A world is its entity list. -/
structure World (P : Type) where
  entities : List (Ent P)

/-- The `targets_query`: id and position of every entity
`With<Targetable>`. -/
def targetables {P : Type} (w : World P) : List (Nat × P) :=
  (w.entities.filter (fun e => e.targetable)).map (fun e => (e.id, e.pos))

/-- The inner loop of `update_targets`: fold the candidate list with
accumulator `(closest_distance, closest_target)`, skipping self and
accepting a candidate iff its distance is strictly below the current
`closest_distance`. -/
def scanLoop {P : Type} (dist : P → P → ℚ) (selfId : Nat) (selfPos : P) :
    List (Nat × P) → ℚ → Option Nat → ℚ × Option Nat
  | [], closest_distance, closest_target => (closest_distance, closest_target)
  | (tid, tpos) :: rest, closest_distance, closest_target =>
    if selfId = tid then
      scanLoop dist selfId selfPos rest closest_distance closest_target
    else
      let distance := dist selfPos tpos
      if distance < closest_distance then
        scanLoop dist selfId selfPos rest distance (some tid)
      else
        scanLoop dist selfId selfPos rest closest_distance closest_target

/-- The body of the outer loop of `update_targets` for one entity of the
query `(Entity, &GlobalTransform, &Vision, &mut Target)`: entities
lacking `Vision` or `Target` are not matched by the query and stay
unchanged; for the rest, `closest_distance` starts at `vision.range`
and `closest_target` at `None`, and the result overwrites
`target.entity`. -/
def entUpdate {P : Type} (dist : P → P → ℚ) (cands : List (Nat × P)) (e : Ent P) : Ent P :=
  match e.vision, e.target with
  | some v, some _ =>
    { e with target := some { entity := (scanLoop dist e.id e.pos cands v.range none).2 } }
  | _, _ => e

/-- `update_targets`: one pass of the system over the whole world.  The
scan reads only positions, which the pass never writes, so the
simultaneous (map) semantics agrees with Bevy's iteration. -/
def update_targets {P : Type} (dist : P → P → ℚ) (w : World P) : World P :=
  { entities := w.entities.map (entUpdate dist (targetables w)) }

/-- Specification predicate for the scan result `r` of one entity:
`r` is empty exactly when no candidate other than self lies strictly
within `range`, and any chosen candidate is a non-self candidate
strictly within `range` at minimal distance among all such. -/
def nearestSpec {P : Type} (dist : P → P → ℚ) (cands : List (Nat × P)) (selfId : Nat)
    (selfPos : P) (range : ℚ) (r : Option Nat) : Prop :=
  (r = none ↔ ∀ cp ∈ cands, cp.1 ≠ selfId → ¬ dist selfPos cp.2 < range) ∧
  (∀ c : Nat, r = some c → ∃ p : P, (c, p) ∈ cands ∧ c ≠ selfId ∧ dist selfPos p < range ∧
    ∀ cp ∈ cands, cp.1 ≠ selfId → dist selfPos cp.2 < range →
      dist selfPos p ≤ dist selfPos cp.2)

/-- Two entities that agree on everything the targeting pass reads or
writes, except possibly the stored `field_of_view`. -/
def sameExceptFov {P : Type} (e1 e2 : Ent P) : Prop :=
  e1.id = e2.id ∧ e1.pos = e2.pos ∧ e1.targetable = e2.targetable ∧ e1.target = e2.target ∧
    Option.map Vision.range e1.vision = Option.map Vision.range e2.vision

end Targeting

/-! ## Concrete fixtures used by witnesses and counterexamples -/

namespace BehaviorTree

/-- A child that fails and bumps the world counter by 1. -/
def failStep : Unit → Nat → NodeStatus × Nat := fun _ w => (NodeStatus.Failure, w + 1)

/-- A child that succeeds and bumps the world counter by 10. -/
def succStep : Unit → Nat → NodeStatus × Nat := fun _ w => (NodeStatus.Success, w + 10)

/-- A child that keeps running and bumps the world counter by 7. -/
def runStep : Unit → Nat → NodeStatus × Nat := fun _ w => (NodeStatus.Running, w + 7)

end BehaviorTree

namespace UtilityAiMod

/-- Two considerations whose scores never exceed the -1.0 sentinel. -/
def lowAi : UtilityAi Unit Unit Nat :=
  { considerations := [{ scorer := fun _ _ => F32.val (-2), action := 0 },
                       { scorer := fun _ _ => F32.nan, action := 1 }] }

/-- Two considerations tied at the maximal score -2. -/
def tieLowAi : UtilityAi Unit Unit Nat :=
  { considerations := [{ scorer := fun _ _ => F32.val (-2), action := 10 },
                       { scorer := fun _ _ => F32.val (-2), action := 20 }] }

/-- The four considerations of the spec example, scoring 3, 5, 5, 2. -/
def considA : Consideration Unit Unit Nat := { scorer := fun _ _ => F32.val 3, action := 1 }

/-- Second consideration of the spec example (score 5, the first maximum). -/
def considB : Consideration Unit Unit Nat := { scorer := fun _ _ => F32.val 5, action := 2 }

/-- Third consideration of the spec example (score 5, tied later). -/
def considC : Consideration Unit Unit Nat := { scorer := fun _ _ => F32.val 5, action := 3 }

/-- Fourth consideration of the spec example (score 2). -/
def considD : Consideration Unit Unit Nat := { scorer := fun _ _ => F32.val 2, action := 4 }

/-- The spec example `[3.0, 5.0, 5.0, 2.0]`. -/
def exampleAi : UtilityAi Unit Unit Nat :=
  { considerations := [considA, considB, considC, considD] }

end UtilityAiMod

namespace Targeting

/-- Concrete one-dimensional Euclidean distance on rational points. -/
def qdist : ℚ → ℚ → ℚ := fun a b => |a - b|

/-- Observer with vision range 10 at the origin. -/
def exEnt0 : Ent ℚ :=
  { id := 0, pos := 0, vision := some { range := 10, field_of_view := 90 },
    target := some { entity := none }, targetable := false }

/-- The spec example world: candidates at distances 12, 9.999 and 5. -/
def exWorld : World ℚ :=
  { entities := [exEnt0,
      { id := 1, pos := 12, vision := none, target := none, targetable := true },
      { id := 2, pos := 9999 / 1000, vision := none, target := none, targetable := true },
      { id := 3, pos := 5, vision := none, target := none, targetable := true }] }

/-- A targetable observer whose stored target is itself. -/
def selfEnt : Ent ℚ :=
  { id := 0, pos := 0, vision := some { range := 10, field_of_view := 90 },
    target := some { entity := some 0 }, targetable := true }

/-- World containing only the self-targetable observer. -/
def selfWorld : World ℚ :=
  { entities := [selfEnt] }

/-- Observer identical to `exEnt0` except for its field of view. -/
def fovEntB : Ent ℚ :=
  { id := 0, pos := 0, vision := some { range := 10, field_of_view := 45 },
    target := some { entity := none }, targetable := false }

/-- A targetable candidate at distance 3. -/
def fovTargetEnt : Ent ℚ :=
  { id := 1, pos := 3, vision := none, target := none, targetable := true }

/-- World for the field-of-view independence witness, observer fov 90. -/
def fovWorldA : World ℚ :=
  { entities := [exEnt0, fovTargetEnt] }

/-- World for the field-of-view independence witness, observer fov 45. -/
def fovWorldB : World ℚ :=
  { entities := [fovEntB, fovTargetEnt] }

end Targeting

/-! ## Theorems: behavior tree (claims about Selector and Sequence) -/

namespace BehaviorTree

theorem runChildren_cons {E W : Type} (e : E) (c : E → W → NodeStatus × W)
    (cs : List (E → W → NodeStatus × W)) (w : W) :
    runChildren e (c :: cs) w = runChildren e cs (c e w).2 :=
  rfl

theorem selectorRun_allFail {E W : Type} (e : E) (cs : List (E → W → NodeStatus × W)) :
    ∀ w : W, allFail e cs w = true →
      selectorRun cs e w = (NodeStatus.Failure, runChildren e cs w) := by
  induction cs with
  | nil => intro w _; rfl
  | cons c rest ih =>
    intro w h
    rcases hcw : c e w with ⟨s, wn⟩
    rw [allFail, Bool.and_eq_true, decide_eq_true_eq, hcw] at h
    obtain ⟨h1, h2⟩ := h
    simp only at h1
    subst h1
    have hr : runChildren e (c :: rest) w = runChildren e rest wn := by
      rw [runChildren_cons, hcw]
    rw [hr]
    simp only [selectorRun, hcw]
    exact ih wn h2

theorem selectorRun_append {E W : Type} (e : E) (pre rest : List (E → W → NodeStatus × W)) :
    ∀ w : W, allFail e pre w = true →
      selectorRun (pre ++ rest) e w = selectorRun rest e (runChildren e pre w) := by
  induction pre with
  | nil => intro w _; rfl
  | cons c pre ih =>
    intro w h
    rcases hcw : c e w with ⟨s, wn⟩
    rw [allFail, Bool.and_eq_true, decide_eq_true_eq, hcw] at h
    obtain ⟨h1, h2⟩ := h
    simp only at h1
    subst h1
    have hr : runChildren e (c :: pre) w = runChildren e pre wn := by
      rw [runChildren_cons, hcw]
    rw [hr, List.cons_append]
    simp only [selectorRun, hcw]
    exact ih wn h2

theorem sequenceRun_allSucceed {E W : Type} (e : E) (cs : List (E → W → NodeStatus × W)) :
    ∀ w : W, allSucceed e cs w = true →
      sequenceRun cs e w = (NodeStatus.Success, runChildren e cs w) := by
  induction cs with
  | nil => intro w _; rfl
  | cons c rest ih =>
    intro w h
    rcases hcw : c e w with ⟨s, wn⟩
    rw [allSucceed, Bool.and_eq_true, decide_eq_true_eq, hcw] at h
    obtain ⟨h1, h2⟩ := h
    simp only at h1
    subst h1
    have hr : runChildren e (c :: rest) w = runChildren e rest wn := by
      rw [runChildren_cons, hcw]
    rw [hr]
    simp only [sequenceRun, hcw]
    exact ih wn h2

theorem sequenceRun_append {E W : Type} (e : E) (pre rest : List (E → W → NodeStatus × W)) :
    ∀ w : W, allSucceed e pre w = true →
      sequenceRun (pre ++ rest) e w = sequenceRun rest e (runChildren e pre w) := by
  induction pre with
  | nil => intro w _; rfl
  | cons c pre ih =>
    intro w h
    rcases hcw : c e w with ⟨s, wn⟩
    rw [allSucceed, Bool.and_eq_true, decide_eq_true_eq, hcw] at h
    obtain ⟨h1, h2⟩ := h
    simp only at h1
    subst h1
    have hr : runChildren e (c :: pre) w = runChildren e pre wn := by
      rw [runChildren_cons, hcw]
    rw [hr, List.cons_append]
    simp only [sequenceRun, hcw]
    exact ih wn h2

/-- Claim C3: `Selector.tick` evaluates children in declared order and
returns the result (Success or Running) of the first child not returning
Failure, never evaluating children past it (the result and final world are
independent of `post`); if every child fails, the Selector fails. -/
theorem selector_tick_first_non_failure {E W : Type} (e : E) :
    (∀ (pre post : List (E → W → NodeStatus × W)) (c : E → W → NodeStatus × W) (w : W),
        allFail e pre w = true → (c e (runChildren e pre w)).1 ≠ NodeStatus.Failure →
        Selector.tick { children := pre ++ c :: post } e w = c e (runChildren e pre w)) ∧
    (∀ (cs : List (E → W → NodeStatus × W)) (w : W), allFail e cs w = true →
        Selector.tick { children := cs } e w = (NodeStatus.Failure, runChildren e cs w)) := by
  constructor
  · intro pre post c w hpre hc
    show selectorRun (pre ++ c :: post) e w = c e (runChildren e pre w)
    rw [selectorRun_append e pre (c :: post) w hpre]
    rcases hcw : c e (runChildren e pre w) with ⟨s, wn⟩
    rw [hcw] at hc
    cases s with
    | Success => simp [selectorRun, hcw]
    | Running => simp [selectorRun, hcw]
    | Failure => exact absurd rfl hc
  · intro cs w h
    exact selectorRun_allFail e cs w h

/-- Witness for claim C3 at children `[F, S, F]` on counter world 0: the
Selector stops at the Success child and the third child never runs. -/
theorem selector_tick_first_non_failure_witness :
    allFail () [failStep] 0 = true ∧
    Selector.tick { children := [failStep, succStep, failStep] } () 0 =
      (NodeStatus.Success, 11) := by
  refine ⟨rfl, ?_⟩
  have h := (selector_tick_first_non_failure ()).1 [failStep] [failStep] succStep 0 rfl
    (by decide)
  exact h.trans (by decide)

/-- Claim C4: `Sequence.tick` evaluates children in declared order and
returns the result (Failure or Running) of the first child not returning
Success, never evaluating children past it (the result and final world are
independent of `post`); if every child succeeds, the Sequence succeeds. -/
theorem sequence_tick_first_non_success {E W : Type} (e : E) :
    (∀ (pre post : List (E → W → NodeStatus × W)) (c : E → W → NodeStatus × W) (w : W),
        allSucceed e pre w = true → (c e (runChildren e pre w)).1 ≠ NodeStatus.Success →
        Sequence.tick { children := pre ++ c :: post } e w = c e (runChildren e pre w)) ∧
    (∀ (cs : List (E → W → NodeStatus × W)) (w : W), allSucceed e cs w = true →
        Sequence.tick { children := cs } e w = (NodeStatus.Success, runChildren e cs w)) := by
  constructor
  · intro pre post c w hpre hc
    show sequenceRun (pre ++ c :: post) e w = c e (runChildren e pre w)
    rw [sequenceRun_append e pre (c :: post) w hpre]
    rcases hcw : c e (runChildren e pre w) with ⟨s, wn⟩
    rw [hcw] at hc
    cases s with
    | Success => exact absurd rfl hc
    | Running => simp [sequenceRun, hcw]
    | Failure => simp [sequenceRun, hcw]
  · intro cs w h
    exact sequenceRun_allSucceed e cs w h

/-- Witness for claim C4 at children `[S, S, F, S]` on counter world 0:
the Sequence stops at the Failure child and the fourth child never runs. -/
theorem sequence_tick_first_non_success_witness :
    allSucceed () [succStep, succStep] 0 = true ∧
    Sequence.tick { children := [succStep, succStep, failStep, succStep] } () 0 =
      (NodeStatus.Failure, 21) := by
  refine ⟨rfl, ?_⟩
  have h := (sequence_tick_first_non_success ()).1 [succStep, succStep] [succStep] failStep 0
    rfl (by decide)
  exact h.trans (by decide)

/-- Claim C9: an empty Selector ticks to Failure and an empty Sequence
ticks to Success, in both cases leaving the world unchanged. -/
theorem empty_children_tick {E W : Type} (e : E) (w : W) :
    Selector.tick ({ children := [] } : Selector E W) e w = (NodeStatus.Failure, w) ∧
    Sequence.tick ({ children := [] } : Sequence E W) e w = (NodeStatus.Success, w) :=
  ⟨rfl, rfl⟩

end BehaviorTree

/-! ## Theorems: state machine -/

namespace StateMachineMod

/-- Claim C6: `transition_to` unconditionally overwrites the stored
state, so after any sequence of transitions ending in `transition_to s`
the current state is exactly `s`, and a fresh holder observes its
initial state. -/
theorem state_machine_transition_spec {S : Type} (initial : S) (ts : List S) (s : S) :
    ((ts ++ [s]).foldl StateMachine.transition_to (StateMachine.new initial)).current_state = s ∧
    (StateMachine.new initial).current_state = initial := by
  refine ⟨?_, rfl⟩
  rw [List.foldl_append]
  rfl

end StateMachineMod

/-! ## Theorems: utility AI -/

namespace UtilityAiMod

theorem selectBestLoop_some_ne_none {E W A : Type} (e : E) (w : W)
    (cs : List (Consideration E W A)) : ∀ (b : F32) (a : A),
    selectBestLoop e w cs b (some a) ≠ none := by
  induction cs with
  | nil => intro b a h; exact Option.noConfusion h
  | cons c rest ih =>
    intro b a
    simp only [selectBestLoop]
    split
    · exact ih _ _
    · exact ih _ _

theorem selectBestLoop_skip_all {E W A : Type} (e : E) (w : W)
    (cs : List (Consideration E W A)) : ∀ (b : F32) (act : Option A),
    (∀ c ∈ cs, F32.gt (c.scorer e w) b = false) →
    selectBestLoop e w cs b act = act := by
  induction cs with
  | nil => intro b act _; rfl
  | cons c rest ih =>
    intro b act h
    have hc : F32.gt (c.scorer e w) b = false := h c (List.mem_cons_self c rest)
    simp only [selectBestLoop, hc, Bool.false_eq_true, if_false]
    exact ih b act fun c2 hm => h c2 (List.mem_cons_of_mem _ hm)

theorem selectBestLoop_none_iff {E W A : Type} (e : E) (w : W)
    (cs : List (Consideration E W A)) : ∀ q : ℚ,
    (selectBestLoop e w cs (F32.val q) none = none ↔
      ∀ c ∈ cs, F32.gt (c.scorer e w) (F32.val q) = false) := by
  induction cs with
  | nil => intro q; simp [selectBestLoop]
  | cons c rest ih =>
    intro q
    cases hg : F32.gt (c.scorer e w) (F32.val q) with
    | true =>
      simp only [selectBestLoop, hg, if_true]
      constructor
      · intro h; exact absurd h (selectBestLoop_some_ne_none e w rest _ _)
      · intro h
        have := h c (List.mem_cons_self c rest)
        rw [hg] at this
        exact absurd this (by simp)
    | false =>
      simp only [selectBestLoop, hg, Bool.false_eq_true, if_false]
      rw [ih q, List.forall_mem_cons, hg]
      simp

theorem selectBestLoop_first_max {E W A : Type} (e : E) (w : W)
    (q : ℚ) (ci : Consideration E W A) (post : List (Consideration E W A))
    (hq : ci.scorer e w = F32.val q)
    (hpost : ∀ c ∈ post, F32.gt (c.scorer e w) (F32.val q) = false) :
    ∀ (pre : List (Consideration E W A)) (qb : ℚ) (act : Option A), qb < q →
    (∀ c ∈ pre, ∃ qc : ℚ, c.scorer e w = F32.val qc ∧ qc < q) →
    selectBestLoop e w (pre ++ ci :: post) (F32.val qb) act = some ci.action := by
  intro pre
  induction pre with
  | nil =>
    intro qb act hqb _
    rw [List.nil_append]
    have hg : F32.gt (ci.scorer e w) (F32.val qb) = true := by
      rw [hq]; simpa [F32.gt] using hqb
    simp only [selectBestLoop, hg, if_true]
    rw [hq]
    exact selectBestLoop_skip_all e w post (F32.val q) (some ci.action) hpost
  | cons c pre ih =>
    intro qb act hqb hpre
    obtain ⟨qc, hqc, hlt⟩ := hpre c (List.mem_cons_self c pre)
    rw [List.cons_append]
    by_cases hb : qb < qc
    · have hg : F32.gt (c.scorer e w) (F32.val qb) = true := by
        rw [hqc]; simpa [F32.gt] using hb
      simp only [selectBestLoop, hg, if_true]
      rw [hqc]
      exact ih qc (some c.action) hlt fun c2 hm => hpre c2 (List.mem_cons_of_mem _ hm)
    · have hg : F32.gt (c.scorer e w) (F32.val qb) = false := by
        rw [hqc]; simp [F32.gt, hb]
      simp only [selectBestLoop, hg, Bool.false_eq_true, if_false]
      exact ih qb act hqb fun c2 hm => hpre c2 (List.mem_cons_of_mem _ hm)

/-- Claim C10: with the `-1.0` sentinel as initial best score, a
consideration whose score does not compare strictly greater than `-1.0`
(score ≤ -1.0 or NaN) can never be selected: if no score beats the
sentinel, `select_best` returns none, and an action is returned only if
some consideration scores strictly greater than `-1.0`. -/
theorem select_best_sentinel {E W A : Type} (ai : UtilityAi E W A) (e : E) (w : W) :
    ((∀ c ∈ ai.considerations, F32.gt (c.scorer e w) (F32.val (-1)) = false) →
      ai.select_best e w = none) ∧
    (∀ a : A, ai.select_best e w = some a →
      ∃ c ∈ ai.considerations, F32.gt (c.scorer e w) (F32.val (-1)) = true) := by
  constructor
  · intro h
    exact (selectBestLoop_none_iff e w ai.considerations (-1)).mpr h
  · intro a ha
    by_contra hno
    push_neg at hno
    simp only [Bool.not_eq_true] at hno
    have hnone := (selectBestLoop_none_iff e w ai.considerations (-1)).mpr hno
    rw [UtilityAi.select_best, hnone] at ha
    exact Option.noConfusion ha

/-- Witness for claim C10: two considerations scoring -2 and NaN produce
no action. -/
theorem select_best_sentinel_witness :
    (∀ c ∈ lowAi.considerations, F32.gt (c.scorer () ()) (F32.val (-1)) = false) ∧
    lowAi.select_best () () = none :=
  ⟨by decide, (select_best_sentinel lowAi () ()).1 (by decide)⟩

/-- Claim C1 counterexample: a non-empty considerations list (scores -2
and NaN) on which `select_best` nevertheless returns none, refuting
"non-empty implies Some". -/
theorem select_best_nonempty_none :
    lowAi.considerations ≠ [] ∧ lowAi.select_best () () = none := by
  exact ⟨List.cons_ne_nil _ _, by decide⟩

/-- Claim C1 (amended): `select_best` returns none iff no consideration
scores strictly greater than the `-1.0` sentinel — that is, iff the list
is empty or every score is ≤ -1.0 or NaN; equivalently it returns an
action iff some score is strictly greater than -1.0. -/
theorem select_best_none_iff {E W A : Type} (ai : UtilityAi E W A) (e : E) (w : W) :
    ai.select_best e w = none ↔
      ∀ c ∈ ai.considerations, F32.gt (c.scorer e w) (F32.val (-1)) = false :=
  selectBestLoop_none_iff e w ai.considerations (-1)

/-- Claim C5 counterexample: two considerations tied at the maximal
score -2 (a non-empty list whose maximum is attained twice), yet
`select_best` returns none rather than the first tied consideration's
action. -/
theorem select_best_tie_below_sentinel :
    tieLowAi.considerations ≠ [] ∧
    (∀ c ∈ tieLowAi.considerations, c.scorer () () = F32.val (-2)) ∧
    tieLowAi.select_best () () = none :=
  ⟨List.cons_ne_nil _ _, by decide, by decide⟩

/-- Claim C5 (amended): for a considerations list splitting as
`pre ++ ci :: post` where `ci` scores a finite `q` strictly above the
`-1.0` sentinel, every earlier consideration scores a finite value
strictly below `q`, and no later consideration compares strictly greater
than `q` (ties included), `select_best` returns `ci`'s action: the
first-declared winner among equal maximal scores. -/
theorem select_best_first_max {E W A : Type} (ai : UtilityAi E W A) (e : E) (w : W)
    (pre post : List (Consideration E W A)) (ci : Consideration E W A) (q : ℚ)
    (hsplit : ai.considerations = pre ++ ci :: post)
    (hq : ci.scorer e w = F32.val q)
    (hsent : -1 < q)
    (hpre : ∀ c ∈ pre, ∃ qc : ℚ, c.scorer e w = F32.val qc ∧ qc < q)
    (hpost : ∀ c ∈ post, F32.gt (c.scorer e w) (F32.val q) = false) :
    ai.select_best e w = some ci.action := by
  rw [UtilityAi.select_best, hsplit]
  exact selectBestLoop_first_max e w q ci post hq hpost pre (-1) none hsent hpre

/-- Witness for claim C5 at the spec example scores `[3, 5, 5, 2]`: the
second consideration (the first of the tied maximum) wins. -/
theorem select_best_first_max_witness :
    exampleAi.considerations = [considA] ++ considB :: [considC, considD] ∧
    exampleAi.select_best () () = some 2 := by
  refine ⟨rfl, select_best_first_max exampleAi () () [considA] [considC, considD] considB 5
    rfl rfl (by norm_num) ?_ (by decide)⟩
  intro c hm
  rw [List.mem_singleton] at hm
  subst hm
  exact ⟨3, rfl, by norm_num⟩

end UtilityAiMod

/-! ## Theorems: targeting -/

namespace Targeting

theorem scanLoop_fst_le {P : Type} (dist : P → P → ℚ) (selfId : Nat) (selfPos : P)
    (cands : List (Nat × P)) : ∀ (d : ℚ) (t : Option Nat),
    (scanLoop dist selfId selfPos cands d t).1 ≤ d := by
  induction cands with
  | nil => intro d t; exact le_refl d
  | cons cp rest ih =>
    obtain ⟨tid, tpos⟩ := cp
    intro d t
    by_cases hsel : selfId = tid
    · simp only [scanLoop, if_pos hsel]
      exact ih d t
    · simp only [scanLoop, if_neg hsel]
      by_cases hlt : dist selfPos tpos < d
      · rw [if_pos hlt]
        exact le_of_lt (lt_of_le_of_lt (ih _ _) hlt)
      · rw [if_neg hlt]
        exact ih d t

theorem scanLoop_fst_le_cands {P : Type} (dist : P → P → ℚ) (selfId : Nat) (selfPos : P)
    (cands : List (Nat × P)) : ∀ (d : ℚ) (t : Option Nat), ∀ cp ∈ cands, cp.1 ≠ selfId →
    (scanLoop dist selfId selfPos cands d t).1 ≤ dist selfPos cp.2 := by
  induction cands with
  | nil => intro d t cp h; exact absurd h (List.not_mem_nil cp)
  | cons hd rest ih =>
    obtain ⟨tid, tpos⟩ := hd
    intro d t cp hmem hne
    rcases List.mem_cons.mp hmem with heq | hmem2
    · subst heq
      by_cases hsel : selfId = tid
      · exact absurd hsel.symm hne
      · simp only [scanLoop, if_neg hsel]
        by_cases hlt : dist selfPos tpos < d
        · rw [if_pos hlt]
          exact scanLoop_fst_le dist selfId selfPos rest (dist selfPos tpos) (some tid)
        · rw [if_neg hlt]
          exact le_trans (scanLoop_fst_le dist selfId selfPos rest d t) (not_lt.mp hlt)
    · by_cases hsel : selfId = tid
      · simp only [scanLoop, if_pos hsel]
        exact ih d t cp hmem2 hne
      · simp only [scanLoop, if_neg hsel]
        by_cases hlt : dist selfPos tpos < d
        · rw [if_pos hlt]
          exact ih _ _ cp hmem2 hne
        · rw [if_neg hlt]
          exact ih d t cp hmem2 hne

theorem scanLoop_snd_spec {P : Type} (dist : P → P → ℚ) (selfId : Nat) (selfPos : P)
    (cands : List (Nat × P)) : ∀ (d : ℚ) (t : Option Nat) (c : Nat),
    (scanLoop dist selfId selfPos cands d t).2 = some c →
    ((scanLoop dist selfId selfPos cands d t).2 = t ∧
      (scanLoop dist selfId selfPos cands d t).1 = d) ∨
    ∃ p : P, (c, p) ∈ cands ∧ c ≠ selfId ∧
      (scanLoop dist selfId selfPos cands d t).1 = dist selfPos p ∧ dist selfPos p < d := by
  induction cands with
  | nil => intro d t c _; exact Or.inl ⟨rfl, rfl⟩
  | cons hd rest ih =>
    obtain ⟨tid, tpos⟩ := hd
    intro d t c h
    by_cases hsel : selfId = tid
    · simp only [scanLoop, if_pos hsel] at h ⊢
      rcases ih d t c h with hl | ⟨p, hp, hcne, heq, hlt⟩
      · exact Or.inl hl
      · exact Or.inr ⟨p, List.mem_cons_of_mem _ hp, hcne, heq, hlt⟩
    · simp only [scanLoop, if_neg hsel] at h ⊢
      by_cases hlt : dist selfPos tpos < d
      · rw [if_pos hlt] at h ⊢
        rcases ih (dist selfPos tpos) (some tid) c h with ⟨hl1, hl2⟩ | ⟨p, hp, hcne, heq, hlt2⟩
        · have hc : c = tid := by
            rw [h] at hl1
            exact Option.some.inj hl1
          subst hc
          exact Or.inr ⟨tpos, List.mem_cons_self _ _, fun heq2 => hsel heq2.symm, hl2, hlt⟩
        · exact Or.inr ⟨p, List.mem_cons_of_mem _ hp, hcne, heq, lt_trans hlt2 hlt⟩
      · rw [if_neg hlt] at h ⊢
        rcases ih d t c h with hl | ⟨p, hp, hcne, heq, hlt2⟩
        · exact Or.inl hl
        · exact Or.inr ⟨p, List.mem_cons_of_mem _ hp, hcne, heq, hlt2⟩

theorem scanLoop_some_ne_none {P : Type} (dist : P → P → ℚ) (selfId : Nat) (selfPos : P)
    (cands : List (Nat × P)) : ∀ (d : ℚ) (c0 : Nat),
    (scanLoop dist selfId selfPos cands d (some c0)).2 ≠ none := by
  induction cands with
  | nil => intro d c0 h; exact Option.noConfusion h
  | cons hd rest ih =>
    obtain ⟨tid, tpos⟩ := hd
    intro d c0
    by_cases hsel : selfId = tid
    · simp only [scanLoop, if_pos hsel]
      exact ih d c0
    · simp only [scanLoop, if_neg hsel]
      by_cases hlt : dist selfPos tpos < d
      · rw [if_pos hlt]
        exact ih _ _
      · rw [if_neg hlt]
        exact ih d c0

theorem scanLoop_none_iff {P : Type} (dist : P → P → ℚ) (selfId : Nat) (selfPos : P)
    (cands : List (Nat × P)) : ∀ d : ℚ,
    ((scanLoop dist selfId selfPos cands d none).2 = none ↔
      ∀ cp ∈ cands, cp.1 ≠ selfId → ¬ dist selfPos cp.2 < d) := by
  induction cands with
  | nil => intro d; simp [scanLoop]
  | cons hd rest ih =>
    obtain ⟨tid, tpos⟩ := hd
    intro d
    by_cases hsel : selfId = tid
    · simp only [scanLoop, if_pos hsel]
      rw [ih d, List.forall_mem_cons]
      constructor
      · intro h; exact ⟨fun hne => absurd hsel.symm hne, h⟩
      · intro h; exact h.2
    · simp only [scanLoop, if_neg hsel]
      by_cases hlt : dist selfPos tpos < d
      · rw [if_pos hlt]
        constructor
        · intro h
          exact absurd h (scanLoop_some_ne_none dist selfId selfPos rest _ _)
        · intro h
          exact absurd hlt (h (tid, tpos) (List.mem_cons_self _ _) fun he => hsel he.symm)
      · rw [if_neg hlt]
        rw [ih d, List.forall_mem_cons]
        constructor
        · intro h; exact ⟨fun _ => hlt, h⟩
        · intro h; exact h.2

theorem scan_nearest {P : Type} (dist : P → P → ℚ) (selfId : Nat) (selfPos : P)
    (cands : List (Nat × P)) (range : ℚ) :
    nearestSpec dist cands selfId selfPos range
      (scanLoop dist selfId selfPos cands range none).2 := by
  constructor
  · exact scanLoop_none_iff dist selfId selfPos cands range
  · intro c h
    rcases scanLoop_snd_spec dist selfId selfPos cands range none c h with
      ⟨hl1, _⟩ | ⟨p, hp, hcne, heq, hlt⟩
    · rw [h] at hl1
      exact Option.noConfusion hl1
    · refine ⟨p, hp, hcne, hlt, ?_⟩
      intro cp hmem hne _
      rw [← heq]
      exact scanLoop_fst_le_cands dist selfId selfPos cands range none cp hmem hne

theorem entUpdate_eq {P : Type} (dist : P → P → ℚ) (cands : List (Nat × P)) (e : Ent P)
    (v : Vision) (t0 : Target) (hv : e.vision = some v) (ht : e.target = some t0) :
    entUpdate dist cands e =
      { e with target := some { entity := (scanLoop dist e.id e.pos cands v.range none).2 } } := by
  simp only [entUpdate, hv, ht]

theorem update_targets_getElem {P : Type} (dist : P → P → ℚ) (w : World P) (i : Nat)
    (e : Ent P) (he : w.entities[i]? = some e) :
    (update_targets dist w).entities[i]? = some (entUpdate dist (targetables w) e) := by
  show (w.entities.map (entUpdate dist (targetables w)))[i]? = _
  rw [List.getElem?_map, he]
  rfl

/-- Claim C2: after one `update_targets` pass, every entity with Vision
and Target components has its Target overwritten with (exactly) the
nearest non-self Targetable candidate strictly within vision range, or
cleared to none when no such candidate exists — independently of the
previously stored Target value. -/
theorem update_targets_nearest {P : Type} (dist : P → P → ℚ) (w : World P)
    (i : Nat) (e : Ent P) (v : Vision) (t0 : Target)
    (he : w.entities[i]? = some e) (hv : e.vision = some v) (ht : e.target = some t0) :
    ∃ r : Option Nat,
      (update_targets dist w).entities[i]? =
        some { e with target := some { entity := r } } ∧
      nearestSpec dist (targetables w) e.id e.pos v.range r := by
  refine ⟨(scanLoop dist e.id e.pos (targetables w) v.range none).2, ?_,
    scan_nearest dist e.id e.pos (targetables w) v.range⟩
  rw [update_targets_getElem dist w i e he, entUpdate_eq dist (targetables w) e v t0 hv ht]

/-- Witness for claim C2 at the spec example: observer with range 10 and
candidates at distances 12, 9.999 and 5. -/
theorem update_targets_nearest_witness :
    ∃ r : Option Nat,
      (update_targets qdist exWorld).entities[0]? =
        some { exEnt0 with target := some { entity := r } } ∧
      nearestSpec qdist (targetables exWorld) exEnt0.id exEnt0.pos 10 r :=
  update_targets_nearest qdist exWorld 0 exEnt0 { range := 10, field_of_view := 90 }
    { entity := none } rfl rfl rfl

/-- Claim C7: an entity holding Vision and Target never ends a pass
targeting itself, whether or not it is itself Targetable, and even when
its distance to itself is 0. -/
theorem update_targets_no_self_target {P : Type} (dist : P → P → ℚ) (w : World P)
    (i : Nat) (e : Ent P) (v : Vision) (t0 : Target)
    (he : w.entities[i]? = some e) (hv : e.vision = some v) (ht : e.target = some t0) :
    ∀ u : Ent P, (update_targets dist w).entities[i]? = some u →
      ∀ tc : Target, u.target = some tc → tc.entity ≠ some e.id := by
  intro u hu tc htc hcontra
  rw [update_targets_getElem dist w i e he,
    entUpdate_eq dist (targetables w) e v t0 hv ht] at hu
  have hu3 : u = { e with
      target := some { entity := (scanLoop dist e.id e.pos (targetables w) v.range none).2 } } :=
    (Option.some.inj hu).symm
  rw [hu3] at htc
  have htc2 : ({ entity := (scanLoop dist e.id e.pos (targetables w) v.range none).2 } :
      Target) = tc := Option.some.inj htc
  have hscan : (scanLoop dist e.id e.pos (targetables w) v.range none).2 = some e.id := by
    rw [← htc2] at hcontra
    exact hcontra
  obtain ⟨p, _, hcne, _, _⟩ :=
    (scan_nearest dist e.id e.pos (targetables w) v.range).2 e.id hscan
  exact hcne rfl

/-- Witness for claim C7: a targetable observer at distance 0 from
itself, whose stored target was itself, ends the pass with no target. -/
theorem update_targets_no_self_target_witness :
    ({ entity := none } : Target).entity ≠ some selfEnt.id :=
  update_targets_no_self_target qdist selfWorld 0 selfEnt
    { range := 10, field_of_view := 90 } { entity := some 0 } rfl rfl rfl
    { selfEnt with target := some { entity := none } } rfl { entity := none } rfl

theorem targetables_eq_of_sameExceptFov {P : Type} :
    ∀ l1 l2 : List (Ent P), List.Forall₂ sameExceptFov l1 l2 →
    (l1.filter (fun e => e.targetable)).map (fun e => (e.id, e.pos)) =
      (l2.filter (fun e => e.targetable)).map (fun e => (e.id, e.pos)) := by
  intro l1 l2 h
  induction h with
  | nil => rfl
  | @cons a b l1 l2 h1 h2 ih =>
    obtain ⟨hid, hpos, htgt, _, _⟩ := h1
    simp only [List.filter_cons]
    rw [htgt]
    by_cases hb : b.targetable = true
    · rw [if_pos hb, if_pos hb]
      simp only [List.map_cons]
      rw [hid, hpos, ih]
    · rw [if_neg hb, if_neg hb]
      exact ih

theorem entUpdate_target_eq {P : Type} (dist : P → P → ℚ) (cands : List (Nat × P))
    (e1 e2 : Ent P) (h : sameExceptFov e1 e2) :
    (entUpdate dist cands e1).target = (entUpdate dist cands e2).target := by
  obtain ⟨hid, hpos, _, htar, hvis⟩ := h
  cases hv1 : e1.vision with
  | none =>
    have hv2 : e2.vision = none := by
      rw [hv1] at hvis
      exact Option.map_eq_none'.mp hvis.symm
    cases ht1 : e1.target with
    | none =>
      have ht2 : e2.target = none := by rw [← htar]; exact ht1
      simp only [entUpdate, hv1, hv2, ht1, ht2]
    | some t1 =>
      have ht2 : e2.target = some t1 := by rw [← htar]; exact ht1
      simp only [entUpdate, hv1, hv2, ht1, ht2]
  | some v1 =>
    have hv2m : Option.map Vision.range e2.vision = some v1.range := by
      rw [← hvis, hv1]
      rfl
    obtain ⟨v2, hv2, hrange⟩ := Option.map_eq_some'.mp hv2m
    cases ht1 : e1.target with
    | none =>
      have ht2 : e2.target = none := by rw [← htar]; exact ht1
      simp only [entUpdate, hv1, hv2, ht1, ht2]
    | some t1 =>
      have ht2 : e2.target = some t1 := by rw [← htar]; exact ht1
      rw [entUpdate_eq dist cands e1 v1 t1 hv1 ht1, entUpdate_eq dist cands e2 v2 t1 hv2 ht2]
      rw [hid, hpos, hrange]

theorem map_entUpdate_forall₂ {P : Type} (dist : P → P → ℚ) (cands : List (Nat × P)) :
    ∀ l1 l2 : List (Ent P), List.Forall₂ sameExceptFov l1 l2 →
    List.Forall₂ (fun u1 u2 => u1.target = u2.target)
      (l1.map (entUpdate dist cands)) (l2.map (entUpdate dist cands)) := by
  intro l1 l2 h
  induction h with
  | nil => exact List.Forall₂.nil
  | cons h1 h2 ih =>
    simp only [List.map_cons]
    exact List.Forall₂.cons (entUpdate_target_eq dist cands _ _ h1) ih

/-- Claim C8: the result of `update_targets` is independent of the
stored `field_of_view` values — two worlds whose entities agree on
everything except field of view produce pointwise equal Target
components. -/
theorem update_targets_fov_independent {P : Type} (dist : P → P → ℚ) (w1 w2 : World P)
    (h : List.Forall₂ sameExceptFov w1.entities w2.entities) :
    List.Forall₂ (fun u1 u2 => u1.target = u2.target)
      (update_targets dist w1).entities (update_targets dist w2).entities := by
  have hc : targetables w1 = targetables w2 :=
    targetables_eq_of_sameExceptFov w1.entities w2.entities h
  show List.Forall₂ _ (w1.entities.map (entUpdate dist (targetables w1)))
    (w2.entities.map (entUpdate dist (targetables w2)))
  rw [hc]
  exact map_entUpdate_forall₂ dist (targetables w2) w1.entities w2.entities h

/-- Witness for claim C8: two worlds differing only in the observer's
field of view (90 versus 45) produce equal targets. -/
theorem update_targets_fov_independent_witness :
    List.Forall₂ sameExceptFov fovWorldA.entities fovWorldB.entities ∧
    List.Forall₂ (fun u1 u2 => u1.target = u2.target)
      (update_targets qdist fovWorldA).entities (update_targets qdist fovWorldB).entities := by
  have h : List.Forall₂ sameExceptFov fovWorldA.entities fovWorldB.entities :=
    List.Forall₂.cons ⟨rfl, rfl, rfl, rfl, rfl⟩
      (List.Forall₂.cons ⟨rfl, rfl, rfl, rfl, rfl⟩ List.Forall₂.nil)
  exact ⟨h, update_targets_fov_independent qdist fovWorldA fovWorldB h⟩

end Targeting

end BevyAiToolkit
